import Mathlib

/-!
Verification of the crypto_tools repository: the `Ux4` four-word unsigned
integer type (`src/utilities/ustates.rs`) and the sponge-based PRNG
(`src/prng/sprng.rs` and `src/prng/gt2016.rs`).

Machine words of width `w` are embedded as natural numbers, with wrapping
arithmetic written as `% 2 ^ w` and Rust's bitwise complement `!x` written
as XOR with the all-ones word `2 ^ w - 1`.
-/

namespace CryptoTools

/-- Bitwise complement of a `w`-bit word, as on `Nat`: Rust's `!x` for an
unsigned `w`-bit integer `x` equals `x XOR (2^w - 1)`. -/
def notW (w x : Nat) : Nat := x ^^^ (2 ^ w - 1)

/-! ## The `Ux4` four-register state (`src/utilities/ustates.rs`) -/

/-- Four-register state `Ux4<U>([U; 4])`, least-significant word first.
Each register holds one `w`-bit word. -/
structure Ux4 where
  r0 : Nat
  r1 : Nat
  r2 : Nat
  r3 : Nat
  deriving DecidableEq, Repr

/-- One position of the ripple-carry addition loop in `impl Add for Ux4`:
`sum = Wrapping(a_i) + Wrapping(b_i) + Wrapping(carry)`, and the outgoing
carry is `1` exactly when `sum < a_i || sum < b_i`, else `0`. -/
def addStep (w ai bi c : Nat) : Nat × Nat :=
  ((ai + bi + c) % 2 ^ w,
   if (ai + bi + c) % 2 ^ w < ai ∨ (ai + bi + c) % 2 ^ w < bi then 1 else 0)

/-- `impl Add for Ux4`: the four iterations of the `for i in 0..4` loop,
threading the carry from word 0 to word 3; the final carry is discarded. -/
def uxAdd (w : Nat) (x y : Ux4) : Ux4 :=
  ⟨(addStep w x.r0 y.r0 0).1,
   (addStep w x.r1 y.r1 (addStep w x.r0 y.r0 0).2).1,
   (addStep w x.r2 y.r2 (addStep w x.r1 y.r1 (addStep w x.r0 y.r0 0).2).2).1,
   (addStep w x.r3 y.r3
     (addStep w x.r2 y.r2 (addStep w x.r1 y.r1 (addStep w x.r0 y.r0 0).2).2).2).1⟩

/-- `impl Not for Ux4`: word-wise complement. -/
def uxNot (w : Nat) (x : Ux4) : Ux4 :=
  ⟨notW w x.r0, notW w x.r1, notW w x.r2, notW w x.r3⟩

/-- The `Ux4` constant `{1,0,0,0}` used by `impl Sub for Ux4`. -/
def uxOne : Ux4 := ⟨1, 0, 0, 0⟩

/-- `impl Sub for Ux4`: `self + ((!rhs) + {1,0,0,0})`, reusing the
carry-propagating addition. -/
def uxSub (w : Nat) (x y : Ux4) : Ux4 :=
  uxAdd w x (uxAdd w (uxNot w y) uxOne)

/-- One single-bit left shift (one iteration of the outer loop of
`impl Shl<usize> for Ux4`): each word's outgoing carry is its top bit
(`x_i >> (w-1)`), the word becomes `(x_i << 1) + carry_in` where the Rust
shift on a `w`-bit word discards the top bit. -/
def shlOnce (w : Nat) (x : Ux4) : Ux4 :=
  ⟨(x.r0 <<< 1) % 2 ^ w,
   (x.r1 <<< 1) % 2 ^ w + x.r0 >>> (w - 1),
   (x.r2 <<< 1) % 2 ^ w + x.r1 >>> (w - 1),
   (x.r3 <<< 1) % 2 ^ w + x.r2 >>> (w - 1)⟩

/-- `impl Shl<usize> for Ux4`: `shift` repetitions of the single-bit shift. -/
def uxShl (w : Nat) (x : Ux4) (shift : Nat) : Ux4 :=
  (shlOnce w)^[shift] x

/-- The unsigned integer denoted by a `Ux4` of `w`-bit words
(little-endian word order). -/
def Ux4.toNat (w : Nat) (x : Ux4) : Nat :=
  x.r0 + x.r1 * 2 ^ w + x.r2 * 2 ^ (2 * w) + x.r3 * 2 ^ (3 * w)

/-! ## Helper lemmas for `Ux4` -/

theorem addStep_comm (w a b c : Nat) : addStep w a b c = addStep w b a c := by
  unfold addStep
  rw [Nat.add_comm a b]
  exact congrArg _ (if_congr or_comm rfl rfl)

theorem uxAdd_comm (w : Nat) (x y : Ux4) : uxAdd w x y = uxAdd w y x := by
  unfold uxAdd
  rw [addStep_comm w x.r0 y.r0, addStep_comm w x.r1 y.r1,
    addStep_comm w x.r2 y.r2, addStep_comm w x.r3 y.r3]

/-! ## Claims about `Ux4` arithmetic -/

/-- C3: `Ux4` addition is ripple-carry with the overflow idiom
`sum < a_i || sum < b_i`, and the spec's `{255,0,0,0} + {1,0,0,0} =
{0,1,0,0}` example holds; but the idiom is wrong in the presence of a
carry-in, so the operation does NOT equal integer addition modulo
`2^(4·w)`: with 8-bit words, `{255,255,0,0} + {255,255,0,0}` evaluates to
`{254,255,0,0}` while integer addition mod `2^32` gives `{254,255,1,0}`
(the carry out of word 1 is lost when both words are 255 and carry-in
is 1). -/
theorem uxAdd_lost_carry_bug :
    uxAdd 8 ⟨255, 255, 0, 0⟩ ⟨255, 255, 0, 0⟩ = ⟨254, 255, 0, 0⟩
    ∧ (Ux4.toNat 8 ⟨255, 255, 0, 0⟩ + Ux4.toNat 8 ⟨255, 255, 0, 0⟩) % 2 ^ 32
        = Ux4.toNat 8 ⟨254, 255, 1, 0⟩
    ∧ Ux4.toNat 8 (uxAdd 8 ⟨255, 255, 0, 0⟩ ⟨255, 255, 0, 0⟩)
        ≠ (Ux4.toNat 8 ⟨255, 255, 0, 0⟩ + Ux4.toNat 8 ⟨255, 255, 0, 0⟩) % 2 ^ 32
    ∧ uxAdd 8 ⟨255, 0, 0, 0⟩ ⟨1, 0, 0, 0⟩ = ⟨0, 1, 0, 0⟩ := by
  refine ⟨by decide, by decide, by decide, by decide⟩

/-- C4: `Ux4` addition is commutative for all word widths and operands,
but it is NOT associative: with 8-bit words, for `a = {255,255,0,0}`,
`b = {1,0,0,0}`, `c = {0,255,0,0}` the code gives `(a+b)+c = {0,255,1,0}`
while `a+(b+c) = {0,255,0,0}` (the lost-carry bug of the addition's
overflow idiom fires in the second grouping only). -/
theorem uxAdd_comm_but_not_assoc :
    (∀ w x y, uxAdd w x y = uxAdd w y x)
    ∧ uxAdd 8 (uxAdd 8 ⟨255, 255, 0, 0⟩ ⟨1, 0, 0, 0⟩) ⟨0, 255, 0, 0⟩ = ⟨0, 255, 1, 0⟩
    ∧ uxAdd 8 ⟨255, 255, 0, 0⟩ (uxAdd 8 ⟨1, 0, 0, 0⟩ ⟨0, 255, 0, 0⟩) = ⟨0, 255, 0, 0⟩
    ∧ (⟨0, 255, 1, 0⟩ : Ux4) ≠ ⟨0, 255, 0, 0⟩ := by
  exact ⟨uxAdd_comm, by decide, by decide, by decide⟩

/-- C8: subtraction is computed as `a + ((NOT b) + {1,0,0,0})` exactly as
the code does, but it does not invert addition: with 8-bit words, for
`a = {255,255,0,0}` and `b = {1,255,0,0}`, `a + b` loses a carry and
evaluates to `{0,255,0,0}`, and `(a + b) - b` evaluates to
`{255,255,255,255}`, not `a`; on inputs that do not hit the lost-carry
case the round trip does hold, e.g. `({5,0,0,0} + {3,0,0,0}) - {3,0,0,0}
= {5,0,0,0}`. -/
theorem uxSub_not_inverse_of_add :
    uxAdd 8 ⟨255, 255, 0, 0⟩ ⟨1, 255, 0, 0⟩ = ⟨0, 255, 0, 0⟩
    ∧ uxSub 8 (uxAdd 8 ⟨255, 255, 0, 0⟩ ⟨1, 255, 0, 0⟩) ⟨1, 255, 0, 0⟩
        = ⟨255, 255, 255, 255⟩
    ∧ (⟨255, 255, 255, 255⟩ : Ux4) ≠ ⟨255, 255, 0, 0⟩
    ∧ uxSub 8 (uxAdd 8 ⟨5, 0, 0, 0⟩ ⟨3, 0, 0, 0⟩) ⟨3, 0, 0, 0⟩ = ⟨5, 0, 0, 0⟩ := by
  refine ⟨by decide, by decide, by decide, by decide⟩

/-- C9: left shifts compose, `shl(a, p+q) = shl(shl(a, p), q)` for every
`Ux4` value and all shift counts, because `shl` iterates the single-bit
shift; and with 8-bit words, shifting `{255,255,255,255}` left by 8
yields `{0,255,255,255}`. -/
theorem uxShl_compose :
    (∀ w x p q, uxShl w x (p + q) = uxShl w (uxShl w x p) q)
    ∧ uxShl 8 ⟨255, 255, 255, 255⟩ 8 = ⟨0, 255, 255, 255⟩ := by
  constructor
  · intro w x p q
    unfold uxShl
    rw [Nat.add_comm p q, Function.iterate_add_apply]
  · decide

/-! ## The sponge PRNG (`src/prng/sprng.rs` and `src/prng/gt2016.rs`)

The two files declare byte-identical `SPRNG<U>` structures and byte-identical
`next` bodies; they differ only in `refresh`. The word type `U` is embedded
as `Nat`, with the word width `w` passed where Rust's `!` needs it. -/

/-- The `SPRNG<U>` structure shared by `sprng.rs` and `gt2016.rs`:
squeeze depth `t`, seed length `s`, seed cursor `j`, rate mask, the
permutation, the seed vector and the sponge state. -/
structure SPRNG where
  t : Nat
  s : Nat
  j : Nat
  mask : Nat
  perm : Nat → Nat
  seed : List Nat
  state : Nat

/-- Result of a Rust call that either returns normally (`Ok`) or fails an
assertion. `aborted` models a failed `assert!`, which unwinds instead of
returning; it carries the engine as it stood at the moment of the abort. -/
inductive Outcome (α : Type) where
  | ok : α → Outcome α
  | aborted : α → Outcome α

/-- Discriminator: did the call die on an assertion instead of returning? -/
def Outcome.isAbort {α : Type} : Outcome α → Bool
  | .ok _ => false
  | .aborted _ => true

/-- Observable data of a refresh outcome: `(state, j)` of the returned
engine when the call returned `Ok`. -/
def okObs : Outcome SPRNG → Option (Nat × Nat)
  | .ok e => some (e.state, e.j)
  | .aborted _ => none

/-- One absorption (the body of the `refresh` loops):
`state ← perm(state XOR ((x XOR seed[j]) AND mask))`, then
`j ← (j+1) mod s`. -/
def absorbStep (eng : SPRNG) (x : Nat) : SPRNG :=
  { eng with
    state := eng.perm (eng.state ^^^ ((x ^^^ eng.seed.getD eng.j 0) &&& eng.mask)),
    j := (eng.j + 1) % eng.s }

/-- The `for i in 0..l` loop of `refresh` in `sprng.rs`, absorbing
`inputs[i]`; the first argument counts the remaining iterations. -/
def rfLoop (inputs : List Nat) : Nat → Nat → SPRNG → SPRNG
  | 0, _, eng => eng
  | steps + 1, i, eng => rfLoop inputs steps (i + 1) (absorbStep eng (inputs.getD i 0))

/-- `SPRNG::refresh` of `sprng.rs`: `assert!(l > 0)` aborts on an empty
input vector before anything is mutated; otherwise the loop runs over
indices `0..l` and the call returns `Ok(())`. -/
def sprngRefresh (eng : SPRNG) (inputs : List Nat) : Outcome SPRNG :=
  if 0 < inputs.length then Outcome.ok (rfLoop inputs inputs.length 0 eng)
  else Outcome.aborted eng

/-- The `for i in 1..l` loop of `refresh` in `gt2016.rs`, absorbing
`inputs[i-1]`; the first argument counts the remaining iterations. -/
def gtLoop (inputs : List Nat) : Nat → Nat → SPRNG → SPRNG
  | 0, _, eng => eng
  | steps + 1, i, eng => gtLoop inputs steps (i + 1) (absorbStep eng (inputs.getD (i - 1) 0))

/-- `SPRNG::refresh` of `gt2016.rs`: no emptiness check; the loop runs
over indices `1..l` (that is, `l - 1` iterations starting at `i = 1`)
and absorbs `inputs[i-1]` each time; the call always returns `Ok(())`. -/
def gt2016Refresh (eng : SPRNG) (inputs : List Nat) : Outcome SPRNG :=
  Outcome.ok (gtLoop inputs (inputs.length - 1) 1 eng)

/-- One blind round of the squeeze (`next`): permute, then zero the rate:
`state ← perm(state) AND (NOT mask)`. -/
def blindRound (w : Nat) (perm : Nat → Nat) (mask st : Nat) : Nat :=
  perm st &&& notW w mask

/-- The `for _ in 1..t` loop of `next` (identical in both files): the
first argument counts the remaining blind rounds. -/
def truncLoop (w : Nat) (perm : Nat → Nat) (mask : Nat) : Nat → Nat → Nat
  | 0, st => st
  | k + 1, st => truncLoop w perm mask k (blindRound w perm mask st)

/-- `SPRNG::next` (byte-identical in `sprng.rs` and `gt2016.rs`): permute
once, capture `R = state AND mask`, run `t - 1` blind rounds, reset
`j ← 1`, return `Ok(R)` (the function has no failure path). -/
def sprngNext (w : Nat) (eng : SPRNG) : Nat × SPRNG :=
  (eng.perm eng.state &&& eng.mask,
   { eng with
     state := truncLoop w eng.perm eng.mask (eng.t - 1) (eng.perm eng.state),
     j := 1 })

/-- Engine states reachable through the public interface: `new`/`setup`
(which checks `r ≤ n` and `s > 1`, sets `mask = (1 << r) - 1`, masks every
seed element with `mask`, clears the rate bits of the random initial state
and starts the cursor at `j = 1`), followed by any sequence of successful
`refresh` and `next` calls. The width parameter `w` plays the role of the
state width `n`. -/
inductive Reachable (w : Nat) : SPRNG → Prop where
  | setup (r t s : Nat) (perm : Nat → Nat) (seedRaw : List Nat) (cap : Nat)
      (hr : r ≤ w) (hs : 1 < s) (hlen : seedRaw.length = s) :
      Reachable w
        { t := t, s := s, j := 1, mask := 2 ^ r - 1, perm := perm,
          seed := seedRaw.map (fun x => x &&& (2 ^ r - 1)),
          state := cap &&& notW w (2 ^ r - 1) }
  | refresh (eng eng' : SPRNG) (inputs : List Nat) :
      Reachable w eng → sprngRefresh eng inputs = Outcome.ok eng' →
      Reachable w eng'
  | next (eng : SPRNG) : Reachable w eng → Reachable w (sprngNext w eng).2

/-! ## Helper lemmas for the sponge PRNG -/

theorem land_mask_land_notW (w m : Nat) (hm : m < 2 ^ w) (a : Nat) :
    (a &&& m) &&& notW w m = 0 := by
  apply Nat.eq_of_testBit_eq
  intro i
  simp only [Nat.testBit_land, notW, Nat.testBit_xor, Nat.testBit_two_pow_sub_one,
    Nat.zero_testBit]
  by_cases h : i < w
  · cases a.testBit i <;> cases m.testBit i <;> simp [h]
  · have hmi : m.testBit i = false :=
      Nat.testBit_eq_false_of_lt
        (lt_of_lt_of_le hm (Nat.pow_le_pow_right (by norm_num) (Nat.le_of_not_lt h)))
    simp [hmi]

theorem land_notW_land_mask (w m : Nat) (hm : m < 2 ^ w) (a : Nat) :
    (a &&& notW w m) &&& m = 0 := by
  apply Nat.eq_of_testBit_eq
  intro i
  simp only [Nat.testBit_land, notW, Nat.testBit_xor, Nat.testBit_two_pow_sub_one,
    Nat.zero_testBit]
  by_cases h : i < w
  · cases a.testBit i <;> cases m.testBit i <;> simp [h]
  · have hmi : m.testBit i = false :=
      Nat.testBit_eq_false_of_lt
        (lt_of_lt_of_le hm (Nat.pow_le_pow_right (by norm_num) (Nat.le_of_not_lt h)))
    simp [hmi]

theorem rfLoop_eq_foldl (inputs : List Nat) (k i : Nat) (eng : SPRNG)
    (h : i + k ≤ inputs.length) :
    rfLoop inputs k i eng = List.foldl absorbStep eng ((inputs.drop i).take k) := by
  induction k generalizing i eng with
  | zero => simp [rfLoop]
  | succ k ih =>
    have hi : i < inputs.length := by omega
    rw [rfLoop, ih (i + 1) _ (by omega), List.drop_eq_getElem_cons hi,
      List.take_succ_cons, List.foldl_cons, List.getD_eq_getElem inputs 0 hi]

theorem gtLoop_eq_rfLoop (inputs : List Nat) (k i : Nat) (eng : SPRNG) (h : 1 ≤ i) :
    gtLoop inputs k i eng = rfLoop inputs k (i - 1) eng := by
  induction k generalizing i eng with
  | zero => rfl
  | succ k ih =>
    rw [gtLoop, rfLoop, ih (i + 1) _ (by omega)]
    have : i + 1 - 1 = i - 1 + 1 := by omega
    rw [this]

theorem absorbStep_fields (eng : SPRNG) (x : Nat) :
    (absorbStep eng x).t = eng.t ∧ (absorbStep eng x).s = eng.s
    ∧ (absorbStep eng x).mask = eng.mask ∧ (absorbStep eng x).j = (eng.j + 1) % eng.s :=
  ⟨rfl, rfl, rfl, rfl⟩

theorem rfLoop_s (inputs : List Nat) (k i : Nat) (eng : SPRNG) :
    (rfLoop inputs k i eng).s = eng.s := by
  induction k generalizing i eng with
  | zero => rfl
  | succ k ih => rw [rfLoop, ih]; rfl

theorem rfLoop_mask (inputs : List Nat) (k i : Nat) (eng : SPRNG) :
    (rfLoop inputs k i eng).mask = eng.mask := by
  induction k generalizing i eng with
  | zero => rfl
  | succ k ih => rw [rfLoop, ih]; rfl

theorem rfLoop_j (inputs : List Nat) (k i : Nat) (eng : SPRNG) (h : eng.j < eng.s) :
    (rfLoop inputs k i eng).j = (eng.j + k) % eng.s := by
  induction k generalizing i eng with
  | zero => exact (Nat.mod_eq_of_lt h).symm
  | succ k ih =>
    rw [rfLoop, ih]
    · show ((eng.j + 1) % eng.s + k) % eng.s = _
      rw [Nat.mod_add_mod]
      congr 1
      omega
    · show (eng.j + 1) % eng.s < eng.s
      exact Nat.mod_lt _ (by omega)

theorem rfLoop_j_lt (inputs : List Nat) (k i : Nat) (eng : SPRNG) (h : eng.j < eng.s) :
    (rfLoop inputs k i eng).j < eng.s := by
  rw [rfLoop_j inputs k i eng h]
  exact Nat.mod_lt _ (by omega)

theorem reachable_inv (w : Nat) (eng : SPRNG) (h : Reachable w eng) :
    1 < eng.s ∧ eng.j < eng.s ∧ eng.mask < 2 ^ w := by
  induction h with
  | setup r t s perm seedRaw cap hr hs hlen =>
    refine ⟨hs, hs, ?_⟩
    have h2 : 2 ^ r ≤ 2 ^ w := Nat.pow_le_pow_right (by norm_num) hr
    have h1 : 0 < 2 ^ r := Nat.pos_pow_of_pos r (by norm_num)
    show 2 ^ r - 1 < 2 ^ w
    omega
  | refresh eng eng' inputs hre hok ih =>
    unfold sprngRefresh at hok
    by_cases hl : 0 < inputs.length
    · rw [if_pos hl] at hok
      cases hok
      exact ⟨by rw [rfLoop_s]; exact ih.1,
        by rw [rfLoop_s]; exact rfLoop_j_lt _ _ _ _ ih.2.1,
        by rw [rfLoop_mask]; exact ih.2.2⟩
    · rw [if_neg hl] at hok
      cases hok
  | next eng hre ih =>
    exact ⟨ih.1, ih.1, ih.2.2⟩

theorem truncLoop_eq_iterate (w : Nat) (p : Nat → Nat) (m : Nat) (k st : Nat) :
    truncLoop w p m k st = (fun st => p st &&& notW w m)^[k] st := by
  induction k generalizing st with
  | zero => rfl
  | succ k ih =>
    rw [truncLoop, ih, Function.iterate_succ_apply]
    rfl

theorem truncLoop_scrubbed (w : Nat) (p : Nat → Nat) (m : Nat) (hm : m < 2 ^ w)
    (k st : Nat) : truncLoop w p m (k + 1) st &&& m = 0 := by
  induction k generalizing st with
  | zero => exact land_notW_land_mask w m hm (p st)
  | succ k ih => exact ih (blindRound w p m st)

/-! ## A concrete reachable engine used by witnesses -/

/-- Concrete engine produced by `setup` with `n = w = 16`, `r = 4`,
`t = 2`, `s = 3`, the identity permutation, all-zero seed randomness and
all-zero capacity randomness. -/
def engW : SPRNG :=
  { t := 2, s := 3, j := 1, mask := 2 ^ 4 - 1, perm := fun x => x,
    seed := List.map (fun x => x &&& (2 ^ 4 - 1)) [0, 0, 0],
    state := 0 &&& notW 16 (2 ^ 4 - 1) }

theorem engW_reachable : Reachable 16 engW :=
  Reachable.setup 4 2 3 (fun x => x) [0, 0, 0] 0 (by norm_num) (by norm_num) rfl

/-! ## Claims about the sponge PRNG -/

/-- C1: for every engine and every permutation, `next()` returns the
rate slice of the state right after the first permutation application
(`output = perm(state) AND mask`), the final state is the result of
`t - 1` further blind rounds `state ← perm(state) AND (NOT mask)` applied
to that first permuted state, and consequently on every reachable state
the returned value ANDed with `NOT mask` is zero. -/
theorem sprng_next_correct (w : Nat) (eng : SPRNG) :
    (sprngNext w eng).1 = eng.perm eng.state &&& eng.mask
    ∧ (sprngNext w eng).2.state
        = (fun st => eng.perm st &&& notW w eng.mask)^[eng.t - 1] (eng.perm eng.state)
    ∧ (Reachable w eng → (sprngNext w eng).1 &&& notW w eng.mask = 0) := by
  refine ⟨rfl, ?_, ?_⟩
  · exact truncLoop_eq_iterate w eng.perm eng.mask (eng.t - 1) (eng.perm eng.state)
  · intro h
    exact land_mask_land_notW w eng.mask (reachable_inv w eng h).2.2 (eng.perm eng.state)

theorem sprng_next_correct_witness :
    (sprngNext 16 engW).1 = engW.perm engW.state &&& engW.mask
    ∧ (sprngNext 16 engW).1 &&& notW 16 engW.mask = 0 := by
  obtain ⟨h1, _, h3⟩ := sprng_next_correct 16 engW
  exact ⟨h1, h3 engW_reachable⟩

/-- C2: for every non-empty input vector, the `sprng.rs` refresh absorbs
each input in order — `state ← perm(state XOR ((x XOR seed[j]) AND mask))`
followed by `j ← (j+1) mod s`, which is exactly `absorbStep` — and
returns `Ok(())`. -/
theorem sprng_refresh_correct (eng : SPRNG) (inputs : List Nat) (h : inputs ≠ []) :
    sprngRefresh eng inputs = Outcome.ok (List.foldl absorbStep eng inputs) := by
  have hl : 0 < inputs.length := List.length_pos.mpr h
  unfold sprngRefresh
  rw [if_pos hl, rfLoop_eq_foldl inputs inputs.length 0 eng (by omega),
    List.drop_zero, List.take_length]

theorem sprng_refresh_correct_witness :
    sprngRefresh engW [3] = Outcome.ok (List.foldl absorbStep engW [3]) :=
  sprng_refresh_correct engW [3] (by decide)

/-- C5 counterexample: refresh with an empty input vector in `sprng.rs`
dies on the assertion `l > 0` instead of returning an error as a result
value: at the concrete engine `engW` the outcome is an abort. -/
theorem sprng_refresh_empty_aborts : (sprngRefresh engW []).isAbort = true := rfl

/-- C5 (amended): calling the stricter refresh with an empty input vector
fails the assertion `l > 0` and aborts (a panic unwind, not a returned
error value and not silent success); the assertion runs before the
absorption loop, so no state mutation occurs — the engine at the abort
point is byte-for-byte the engine passed in. -/
theorem sprng_refresh_empty_no_mutation (eng : SPRNG) :
    sprngRefresh eng [] = Outcome.aborted eng := rfl

/-- Modelled from the claim's words, for comparison only (not from the
source): a refresh that "iterates absorbed inputs from index 1, silently
skipping the first input" would absorb `inputs[1..]` in order. -/
def gt2016RefreshClaim (eng : SPRNG) (inputs : List Nat) : Outcome SPRNG :=
  Outcome.ok (List.foldl absorbStep eng (inputs.drop 1))

/-- C6 counterexample: on the engine `engW` with inputs `[1, 2]`, the
`gt2016.rs` refresh absorbs the FIRST input (final state 1, cursor 2),
while the claim's skip-the-first reading absorbs the second input (final
state 2): the loop `for i in 1..l` reads `inputs[i-1]`, so the input it
skips is the last one, not the first. -/
theorem gt2016_refresh_cex :
    okObs (gt2016Refresh engW [1, 2]) = some (1, 2)
    ∧ okObs (gt2016RefreshClaim engW [1, 2]) = some (2, 2)
    ∧ okObs (gt2016Refresh engW [1, 2]) ≠ okObs (gt2016RefreshClaim engW [1, 2]) := by
  have h1 : okObs (gt2016Refresh engW [1, 2]) = some (1, 2) := rfl
  have h2 : okObs (gt2016RefreshClaim engW [1, 2]) = some (2, 2) := rfl
  refine ⟨h1, h2, ?_⟩
  rw [h1, h2]
  decide

/-- C6 (amended): the `gt2016.rs` refresh loops `for i in 1..l` absorbing
`inputs[i-1]`: it absorbs the first `l - 1` inputs in order and silently
skips the LAST input. It therefore performs `l - 1` absorptions, needs at
least 2 inputs to have any effect, and on an empty or single-element
input it absorbs nothing and still returns `Ok(())`. -/
theorem gt2016_refresh_correct (eng : SPRNG) (inputs : List Nat) :
    gt2016Refresh eng inputs
      = Outcome.ok (List.foldl absorbStep eng (inputs.take (inputs.length - 1))) := by
  unfold gt2016Refresh
  rw [gtLoop_eq_rfLoop inputs (inputs.length - 1) 1 eng (by omega)]
  simp only [Nat.sub_self]
  rw [rfLoop_eq_foldl inputs (inputs.length - 1) 0 eng (by omega), List.drop_zero]

/-- C7: on every reachable engine the seed cursor satisfies `j < s`;
starting from `j = 1`, a successful refresh over `k` inputs leaves the
cursor at `(1 + k) mod s`; and after any `next()` call the cursor is
exactly 1. -/
theorem sprng_cursor (w : Nat) (eng : SPRNG) (h : Reachable w eng) :
    eng.j < eng.s
    ∧ (∀ inputs eng', eng.j = 1 → sprngRefresh eng inputs = Outcome.ok eng' →
        eng'.j = (1 + inputs.length) % eng.s)
    ∧ (sprngNext w eng).2.j = 1 := by
  obtain ⟨hs, hj, _⟩ := reachable_inv w eng h
  refine ⟨hj, ?_, rfl⟩
  intro inputs eng' hj1 hok
  unfold sprngRefresh at hok
  by_cases hl : 0 < inputs.length
  · rw [if_pos hl] at hok
    cases hok
    rw [rfLoop_j inputs inputs.length 0 eng hj, hj1]
  · rw [if_neg hl] at hok
    cases hok

theorem sprng_cursor_witness :
    engW.j < engW.s
    ∧ (rfLoop [5, 6] 2 0 engW).j = (1 + 2) % engW.s
    ∧ (sprngNext 16 engW).2.j = 1 := by
  obtain ⟨h1, h2, h3⟩ := sprng_cursor 16 engW engW_reachable
  exact ⟨h1, h2 [5, 6] (rfLoop [5, 6] 2 0 engW) rfl rfl, h3⟩

/-- C10: for squeeze depth `t ≥ 2`, the state immediately after `next()`
has zero rate bits (`state AND mask = 0`), because the last blind round
ends by clearing the rate; for `t = 1` no blind round runs and the
post-call state's rate bits equal the value just returned. -/
theorem sprng_next_scrub (w : Nat) (eng : SPRNG) (hm : eng.mask < 2 ^ w) :
    (2 ≤ eng.t → (sprngNext w eng).2.state &&& eng.mask = 0)
    ∧ (eng.t = 1 → (sprngNext w eng).2.state &&& eng.mask = (sprngNext w eng).1) := by
  constructor
  · intro ht
    show truncLoop w eng.perm eng.mask (eng.t - 1) (eng.perm eng.state) &&& eng.mask = 0
    obtain ⟨k, hk⟩ : ∃ k, eng.t - 1 = k + 1 := ⟨eng.t - 2, by omega⟩
    rw [hk]
    exact truncLoop_scrubbed w eng.perm eng.mask hm k (eng.perm eng.state)
  · intro ht
    show truncLoop w eng.perm eng.mask (eng.t - 1) (eng.perm eng.state) &&& eng.mask = _
    rw [ht]
    rfl

theorem sprng_next_scrub_witness :
    engW.mask < 2 ^ 16 ∧ (sprngNext 16 engW).2.state &&& engW.mask = 0 :=
  ⟨by decide, (sprng_next_scrub 16 engW (by decide)).1 (by decide)⟩

end CryptoTools
